import Mathlib

/-!
Shallow embedding of `syncer/online-ddl-tools/online_ddl.go` (package `onlineddl`):
the persisted online-DDL metadata store (`Storage`) of the dm replication engine.

Modelling choices, all taken from the source:

* The in-memory two-level map `ddls map[string]map[string]*GhostDDLInfo` is
  embedded as an association list `Mem` (schema → association list of
  table → record).  Go map insert/delete/lookup become `aset`/`aremove`/`alookup`.
  Iteration order of a Go map is unspecified; the model iterates the
  association list in order.  None of the verified properties depend on the
  iteration order (they are per-key or trace-shape properties).
* The durable table (rows keyed by (`id`,`ghost_schema`,`ghost_table`), column
  `ddls` holding the JSON-serialized record) is embedded as an association
  list `DB` keyed by (schema, table); the source id is fixed for one `Storage`
  instance and therefore elided.  `json.Marshal` of a `GhostDDLInfo` is
  deterministic and injective, so a durable row stores the record itself;
  "same serialized record" is "same record".
* Every operation returns, besides its result and the new state, the list of
  `Event`s it performed, in order: lock acquisition/release of the single
  `sync.RWMutex`, and each SQL statement sent to the downstream store
  (`REPLACE INTO`, `DELETE`, `SELECT`, connection reset/close).
* Downstream-store calls can fail; an oracle `List Bool` supplies the outcome
  of each successive call (`[]` means every call succeeds).  A failed call is
  still an attempted call, hence still traced; it leaves the durable mirror
  unchanged and is propagated as `StoreError.downstream`
  (`terror.WithScope(err, terror.ScopeDownstream)` in the source).
* `json.Unmarshal` in `Load` is an external library call; it is a parameter
  `parse : String → Option GhostDDLInfo` of `Load`.  An unmarshal failure is
  `StoreError.invalidMeta` (`terror.ErrSyncerUnitOnlineDDLInvalidMeta`).
-/

namespace OnlineDDL

/-- `GhostDDLInfo` from the source: the real (non-ghost) target identity of a
ghost table plus the accumulated DDL statements. -/
structure GhostDDLInfo where
  Schema : String
  Table : String
  DDLs : List String
deriving DecidableEq, Repr

/-- Error kinds surfaced by the store, after the source's `terror` tagging:
`downstream` is any downstream-store failure wrapped with
`terror.ScopeDownstream`; `invalidMeta` is
`terror.ErrSyncerUnitOnlineDDLInvalidMeta` (metadata corruption). -/
inductive StoreError where
  | downstream
  | invalidMeta
deriving DecidableEq, Repr

/-- One observable action of an operation: lock usage of the `sync.RWMutex`
embedded in `Storage`, or one call against the downstream store. -/
inductive Event where
  | lockW
  | unlockW
  | lockR
  | unlockR
  | dbReplace (ghostSchema ghostTable : String) (rec : GhostDDLInfo)
  | dbDelete (ghostSchema ghostTable : String)
  | dbDeleteAll
  | dbQuery
  | dbResetConn
  | dbClose
deriving DecidableEq, Repr

/-- Association-list lookup, the embedding of a Go map read `m[k]`. -/
def alookup {κ β : Type} [DecidableEq κ] (k : κ) : List (κ × β) → Option β
  | [] => none
  | (k2, v) :: rest => if k2 = k then some v else alookup k rest

/-- Association-list insert/overwrite, the embedding of a Go map write `m[k] = v`. -/
def aset {κ β : Type} [DecidableEq κ] (k : κ) (v : β) : List (κ × β) → List (κ × β)
  | [] => [(k, v)]
  | (k2, v2) :: rest => if k2 = k then (k, v) :: rest else (k2, v2) :: aset k v rest

/-- Association-list removal, the embedding of Go `delete(m, k)`. -/
def aremove {κ β : Type} [DecidableEq κ] (k : κ) : List (κ × β) → List (κ × β)
  | [] => []
  | (k2, v2) :: rest => if k2 = k then rest else (k2, v2) :: aremove k rest

/-- Inner level of the in-memory cache: ghost table → record. -/
abbrev TableMap := List (String × GhostDDLInfo)

/-- The in-memory cache `ddls`: ghost schema → (ghost table → record). -/
abbrev Mem := List (String × TableMap)

/-- The durable mirror: one row per (ghost schema, ghost table) for the fixed
source id, holding the serialized record. -/
abbrev DB := List ((String × String) × GhostDDLInfo)

/-- The store state: in-memory cache plus durable mirror.  The configuration,
connection handles and source id of the Go struct carry no verified state and
are elided. -/
structure Storage where
  mem : Mem
  db : DB
deriving DecidableEq, Repr

/-- Two-level lookup `s.ddls[ghostSchema][ghostTable]`. -/
def memGet (m : Mem) (gs gt : String) : Option GhostDDLInfo :=
  (alookup gs m).bind (fun ms => alookup gt ms)

/-- Two-level write: ensure the schema map exists (`make` in the source), then
set the table entry — the combined effect of the source's nested map writes. -/
def memSet (gs gt : String) (info : GhostDDLInfo) (m : Mem) : Mem :=
  aset gs (aset gt info ((alookup gs m).getD [])) m

/-- Durable-row lookup by (ghost schema, ghost table). -/
def dbGet (db : DB) (gs gt : String) : Option GhostDDLInfo :=
  alookup (gs, gt) db

/-- Draw the outcome of the next downstream call from the oracle; an exhausted
oracle means success. -/
def oracleNext : List Bool → Bool × List Bool
  | [] => (true, [])
  | b :: rest => (b, rest)

/-- Intermediate result of a store operation body: Go error (`none` = nil),
new state, remaining oracle, events performed. -/
structure OpOut where
  res : Option StoreError
  st : Storage
  orc : List Bool
  trace : List Event
deriving DecidableEq, Repr

/-- Result of a public operation: Go error (`none` = nil), new state, events. -/
structure PubOut where
  res : Option StoreError
  st : Storage
  trace : List Event
deriving DecidableEq, Repr

/-- `s.Lock()` at entry and the deferred `s.Unlock()` around a body: the
source's `s.Lock(); defer s.Unlock()` pattern (the deferred unlock runs on
every return path). -/
def withWriteLock (o : OpOut) : PubOut :=
  ⟨o.res, o.st, Event.lockW :: o.trace ++ [Event.unlockW]⟩

/-- `Storage.saveToDB`: marshal the record (total on this data) and
`REPLACE INTO` the row keyed by (ghost schema, ghost table). -/
def saveToDBB (st : Storage) (gs gt : String) (info : GhostDDLInfo) (orc : List Bool) : OpOut :=
  let p := oracleNext orc
  if p.1 then
    ⟨none, ⟨st.mem, aset (gs, gt) info st.db⟩, p.2, [Event.dbReplace gs gt info]⟩
  else
    ⟨some .downstream, st, p.2, [Event.dbReplace gs gt info]⟩

/-- The private `Storage.delete`: no-op if the schema key is absent; otherwise
`DELETE` the durable row first, then (only on success) remove the in-memory
entry. -/
def deleteB (st : Storage) (gs gt : String) (orc : List Bool) : OpOut :=
  match alookup gs st.mem with
  | none => ⟨none, st, orc, []⟩
  | some ms =>
    let p := oracleNext orc
    if p.1 then
      ⟨none, ⟨aset gs (aremove gt ms) st.mem, aremove (gs, gt) st.db⟩, p.2,
        [Event.dbDelete gs gt]⟩
    else
      ⟨some .downstream, st, p.2, [Event.dbDelete gs gt]⟩

/-- `Storage.Get`: under a read lock, look up the record and return a copy
(`*clone = *mSchema[ghostTable]`); `none` when schema or table is absent. -/
def Storage.Get (st : Storage) (ghostSchema ghostTable : String) :
    Option GhostDDLInfo × List Event :=
  (memGet st.mem ghostSchema ghostTable, [Event.lockR, Event.unlockR])

/-- The record `Save` operates on: the existing one, or a fresh record carrying
the supplied real schema/table (`&GhostDDLInfo{Schema: realSchema, Table: realTable}`). -/
def baseRec (st : Storage) (gs gt rs rt : String) : GhostDDLInfo :=
  (memGet st.mem gs gt).getD ⟨rs, rt, []⟩

/-- The most recently recorded DDL for a key, if any. -/
def lastSaved (st : Storage) (gs gt : String) : Option String :=
  (memGet st.mem gs gt).bind (fun i => i.DDLs.getLast?)

/-- Body of `Storage.Save`: create the record if absent; return nil without
touching anything if the last recorded DDL equals `ddl`
(`len(info.DDLs) != 0 && info.DDLs[len(info.DDLs)-1] == ddl`); otherwise
append `ddl` in memory and then write the row via `saveToDB`. -/
def saveB (st : Storage) (gs gt rs rt ddl : String) (orc : List Bool) : OpOut :=
  let base := baseRec st gs gt rs rt
  if base.DDLs.getLast? = some ddl then
    ⟨none, st, orc, []⟩
  else
    let info : GhostDDLInfo := ⟨base.Schema, base.Table, base.DDLs ++ [ddl]⟩
    saveToDBB ⟨memSet gs gt info st.mem, st.db⟩ gs gt info orc

/-- `Storage.Save`, under the write lock. -/
def Storage.Save (st : Storage) (ghostSchema ghostTable realSchema realTable ddl : String)
    (orc : List Bool) : PubOut :=
  withWriteLock (saveB st ghostSchema ghostTable realSchema realTable ddl orc)

/-- `Storage.Delete`, under the write lock. -/
def Storage.Delete (st : Storage) (ghostSchema ghostTable : String) (orc : List Bool) : PubOut :=
  withWriteLock (deleteB st ghostSchema ghostTable orc)

/-- Body of `Storage.Clear`: `DELETE` every durable row of the source id, then
reset the in-memory map to empty (memory untouched if the statement fails). -/
def clearB (st : Storage) (orc : List Bool) : OpOut :=
  let p := oracleNext orc
  if p.1 then ⟨none, ⟨[], []⟩, p.2, [Event.dbDeleteAll]⟩
  else ⟨some .downstream, st, p.2, [Event.dbDeleteAll]⟩

/-- `Storage.Clear`, under the write lock. -/
def Storage.Clear (st : Storage) (orc : List Bool) : PubOut :=
  withWriteLock (clearB st orc)

/-- The row-scan loop of `Storage.Load`: for each row, install an empty record
(`mSchema[table] = &GhostDDLInfo{}`), unmarshal the payload into it, and abort
with the metadata-corruption error on unmarshal failure. -/
def loadRows (parse : String → Option GhostDDLInfo) :
    List (String × String × String) → Mem → Option StoreError × Mem
  | [], m => (none, m)
  | row :: rest, m =>
    let m1 := memSet row.1 row.2.1 ⟨"", "", []⟩ m
    match parse row.2.2 with
    | some rec => loadRows parse rest (memSet row.1 row.2.1 rec m1)
    | none => (some .invalidMeta, m1)

/-- Body of `Storage.Load`: `SELECT` all rows of the source id (a query failure
is a downstream error), then scan them into the in-memory map. -/
def loadB (parse : String → Option GhostDDLInfo) (st : Storage) (queryOk : Bool)
    (rows : List (String × String × String)) : OpOut :=
  if queryOk then
    let r := loadRows parse rows st.mem
    ⟨r.1, ⟨r.2, st.db⟩, [], [Event.dbQuery]⟩
  else ⟨some .downstream, st, [], [Event.dbQuery]⟩

/-- `Storage.Load`, under the write lock.  `rows` is the durable result set
delivered for the source id, as (ghost schema, ghost table, payload). -/
def Storage.Load (parse : String → Option GhostDDLInfo) (st : Storage) (queryOk : Bool)
    (rows : List (String × String × String)) : PubOut :=
  withWriteLock (loadB parse st queryOk rows)

/-- `Storage.ResetConn`: `return s.dbConn.ResetConn(tctx)` — the source
acquires no lock here. -/
def Storage.ResetConn (st : Storage) (connOk : Bool) : PubOut :=
  ⟨if connOk then none else some .downstream, st, [Event.dbResetConn]⟩

/-- `Storage.Close`: release the downstream connection, under the write lock. -/
def Storage.Close (st : Storage) : PubOut :=
  withWriteLock ⟨none, st, [], [Event.dbClose]⟩

/-- One iteration of `CheckAndUpdate`'s inner loop for table `tbl` holding
`info`: decide the target key, and if it changed, update the record's `Table`
in place, `saveToDB` under the new key, then `delete` the old key. -/
def cauStep (realSchema : String) (hasChange : Bool) (tblMap : List (String × String))
    (fn : String → String) (schema tbl : String) (info : GhostDDLInfo)
    (st : Storage) (orc : List Bool) : OpOut :=
  let hit := alookup tbl tblMap
  let realTbl := hit.getD tbl
  let tableChange := hit.isSome || hasChange
  if tableChange then
    let info2 : GhostDDLInfo := ⟨info.Schema, fn realTbl, info.DDLs⟩
    let st1 : Storage := ⟨memSet schema tbl info2 st.mem, st.db⟩
    let o := saveToDBB st1 realSchema realTbl info2 orc
    match o.res with
    | some e => ⟨some e, o.st, o.orc, o.trace⟩
    | none =>
      let o2 := deleteB o.st schema tbl o.orc
      ⟨o2.res, o2.st, o2.orc, o.trace ++ o2.trace⟩
  else ⟨none, st, orc, []⟩

/-- `CheckAndUpdate`'s inner loop over the tables of one schema (iterating the
snapshot of entries; the loop only deletes the entry it is visiting, which Go's
`range` permits). -/
def cauTables (realSchema : String) (hasChange : Bool) (tblMap : List (String × String))
    (fn : String → String) (schema : String) :
    List (String × GhostDDLInfo) → Storage → List Bool → OpOut
  | [], st, orc => ⟨none, st, orc, []⟩
  | (tbl, info) :: rest, st, orc =>
    let o := cauStep realSchema hasChange tblMap fn schema tbl info st orc
    match o.res with
    | some e => ⟨some e, o.st, o.orc, o.trace⟩
    | none =>
      let o2 := cauTables realSchema hasChange tblMap fn schema rest o.st o.orc
      ⟨o2.res, o2.st, o2.orc, o.trace ++ o2.trace⟩

/-- Outcome of `CheckAndUpdate`'s schema loop, including the `changedSchemas`
list it accumulates. -/
structure CauOut where
  res : Option StoreError
  st : Storage
  orc : List Bool
  trace : List Event
  changed : List String
deriving DecidableEq, Repr

/-- `CheckAndUpdate`'s outer loop over schemas: resolve the target schema from
`schemaMap` (falling back to the schema itself), fetch the per-schema table
rename map, run the inner loop, and record renamed schemas. -/
def cauSchemas (schemaMap : List (String × String))
    (tablesMap : List (String × List (String × String))) (fn : String → String) :
    List (String × TableMap) → Storage → List Bool → CauOut
  | [], st, orc => ⟨none, st, orc, [], []⟩
  | (schema, tms) :: rest, st, orc =>
    let hasChange := (alookup schema schemaMap).isSome
    let realSchema := (alookup schema schemaMap).getD schema
    let tblMap := (alookup schema tablesMap).getD []
    let o := cauTables realSchema hasChange tblMap fn schema tms st orc
    match o.res with
    | some e => ⟨some e, o.st, o.orc, o.trace, []⟩
    | none =>
      let o2 := cauSchemas schemaMap tablesMap fn rest o.st o.orc
      ⟨o2.res, o2.st, o2.orc, o.trace ++ o2.trace,
        (if hasChange then [schema] else []) ++ o2.changed⟩

/-- The final re-keying loop of `CheckAndUpdate`: for each changed schema,
move its (by now possibly emptied) table map to the new schema key and drop
the old key — `s.ddls[schemaMap[schema]] = ddl; delete(s.ddls, schema)`. -/
def rekeySchemas (schemaMap : List (String × String)) : List String → Mem → Mem
  | [], m => m
  | sc :: rest, m =>
    let cur := (alookup sc m).getD []
    let ns := (alookup sc schemaMap).getD sc
    rekeySchemas schemaMap rest (aremove sc (aset ns cur m))

/-- Body of `Storage.CheckAndUpdate`: run the schema loop over the snapshot of
the in-memory map, then, if no downstream call failed, re-key the changed
schemas in memory. -/
def cauB (st : Storage) (schemaMap : List (String × String))
    (tablesMap : List (String × List (String × String))) (fn : String → String)
    (orc : List Bool) : OpOut :=
  let o := cauSchemas schemaMap tablesMap fn st.mem st orc
  match o.res with
  | some e => ⟨some e, o.st, o.orc, o.trace⟩
  | none => ⟨none, ⟨rekeySchemas schemaMap o.changed o.st.mem, o.st.db⟩, o.orc, o.trace⟩

/-- `Storage.CheckAndUpdate` (the reconciliation operation), under the write
lock.  `fn` is the external `realNameFn` resolver. -/
def Storage.CheckAndUpdate (st : Storage) (schemaMap : List (String × String))
    (tablesMap : List (String × List (String × String))) (fn : String → String)
    (orc : List Bool) : PubOut :=
  withWriteLock (cauB st schemaMap tablesMap fn orc)

/-- Whether an event is an operation on the store's `sync.RWMutex`. -/
def Event.isLockEvent : Event → Bool
  | .lockW => true
  | .unlockW => true
  | .lockR => true
  | .unlockR => true
  | _ => false

/-- The downstream-store calls of a trace, in order (lock events removed). -/
def dbCalls (t : List Event) : List Event :=
  t.filter (fun e => !e.isLockEvent)

/-- A trace containing no lock events. -/
def noLockEvents (t : List Event) : Bool :=
  t.all (fun e => !e.isLockEvent)

/-- A trace that acquires the write lock as its first action, releases it as
its last action, and touches the lock nowhere in between. -/
def writeLocked (t : List Event) : Prop :=
  ∃ mid, t = Event.lockW :: mid ++ [Event.unlockW] ∧ noLockEvents mid = true

/-- A trace that holds the read lock for its entire duration. -/
def readLocked (t : List Event) : Prop :=
  ∃ mid, t = Event.lockR :: mid ++ [Event.unlockR] ∧ noLockEvents mid = true

/-- One migration segment of a reconciliation trace: the durable upsert of a
record under its new key, optionally followed by the durable delete of its old
row.  The delete, when present, comes strictly after the write. -/
def migSeg (s : (String × String × GhostDDLInfo) × Option (String × String)) : List Event :=
  match s with
  | ((ns, nt, rec), none) => [Event.dbReplace ns nt rec]
  | ((ns, nt, rec), some (os, ot)) => [Event.dbReplace ns nt rec, Event.dbDelete os ot]

/-- A trace of durable calls in which every delete of an old row is immediately
preceded by the upsert of the same logical record under its new key: the trace
decomposes into migration segments. -/
def writeBeforeDelete (t : List Event) : Prop :=
  ∃ l : List ((String × String × GhostDDLInfo) × Option (String × String)),
    t = (l.map migSeg).flatten

/-- The in-memory cache and the durable mirror agree: every key resolves to
the same (serialized) record in both layers. -/
def agrees (m : Mem) (db : DB) : Prop :=
  ∀ gs gt, memGet m gs gt = dbGet db gs gt

/-- A concrete record used as test input. -/
def exRec : GhostDDLInfo := ⟨"realdb", "realtbl", ["ddl1", "ddl2"]⟩

/-- A concrete store holding `exRec` under ghost key (g1, t1), with the
durable mirror in agreement. -/
def exStore : Storage := ⟨[("g1", [("t1", exRec)])], [(("g1", "t1"), exRec)]⟩

/-! ### Slice-accurate model of `Get`'s copy

In Go, `Get` returns `clone` where `*clone = *mSchema[ghostTable]`: a struct
copy.  A Go slice value is a reference to a backing array, so the copy shares
the `DDLs` backing array with the record held by the store.  To settle the
copy-semantics claim, the record is re-modelled with its `DDLs` slice as a
reference (`ddlsRef`) into a heap of string arrays; a struct copy copies the
reference, and writing an element through either reference is visible through
both. -/

/-- The heap of slice backing arrays. -/
abbrev DDLHeap := List (List String)

/-- `GhostDDLInfo` with its `DDLs` slice modelled as a heap reference, the way
the Go struct actually holds it. -/
structure GhostDDLInfoRef where
  Schema : String
  Table : String
  ddlsRef : Nat
deriving DecidableEq, Repr

/-- The in-memory cache in the slice-accurate model. -/
abbrev MemRef := List (String × List (String × GhostDDLInfoRef))

/-- Read a slice's contents from the heap. -/
def heapRead (h : DDLHeap) (r : Nat) : List String :=
  h.getD r []

/-- The caller-side mutation `rec.DDLs[i] = v`: write one element of the
backing array at reference `r`. -/
def heapWriteElem (h : DDLHeap) (r i : Nat) (v : String) : DDLHeap :=
  h.set r ((h.getD r []).set i v)

/-- `Storage.Get` in the slice-accurate model: the same two-level lookup,
returning the struct copy `*clone = *info` — fields copied by value, the
`ddlsRef` included. -/
def getShallowCopy (m : MemRef) (gs gt : String) : Option GhostDDLInfoRef :=
  (alookup gs m).bind (fun ms => alookup gt ms)

/-- The DDL history the store itself sees for a key: the backing array of the
record held in its internal map. -/
def storeDDLsView (h : DDLHeap) (m : MemRef) (gs gt : String) : Option (List String) :=
  (getShallowCopy m gs gt).map (fun r => heapRead h r.ddlsRef)

/-- Concrete slice-accurate store contents: one record under (g1, t1) whose
`DDLs` slice points at heap cell 0. -/
def exHeap : DDLHeap := [["ddl1", "ddl2"]]

/-- Concrete slice-accurate in-memory map over `exHeap`. -/
def exMemRef : MemRef := [("g1", [("t1", ⟨"realdb", "realtbl", 0⟩)])]

/-- A concrete stand-in for `json.Unmarshal` in `Load` witnesses: parses the
payload "good" and rejects everything else. -/
def exParse : String → Option GhostDDLInfo := fun s =>
  if s = "good" then some ⟨"db", "tbl", ["d"]⟩ else none

/-! ### Lemmas about the map operations -/

lemma alookup_aset_self {κ β : Type} [DecidableEq κ] (k : κ) (v : β) (l : List (κ × β)) :
    alookup k (aset k v l) = some v := by
  induction l with
  | nil => simp [aset, alookup]
  | cons p rest ih =>
    obtain ⟨k2, v2⟩ := p
    by_cases h : k2 = k
    · simp [aset, h, alookup]
    · simp [aset, h, alookup, ih]

lemma memGet_memSet_self (m : Mem) (gs gt : String) (info : GhostDDLInfo) :
    memGet (memSet gs gt info m) gs gt = some info := by
  simp [memGet, memSet, alookup_aset_self]

/-! ### Lemmas about `Save` -/

lemma baseRec_getLast (st : Storage) (gs gt rs rt : String) :
    (baseRec st gs gt rs rt).DDLs.getLast? = lastSaved st gs gt := by
  cases h : memGet st.mem gs gt <;> simp [baseRec, lastSaved, h]

lemma saveToDBB_trace (st : Storage) (gs gt : String) (info : GhostDDLInfo) (orc : List Bool) :
    (saveToDBB st gs gt info orc).trace = [Event.dbReplace gs gt info] := by
  cases orc with
  | nil => rfl
  | cons b rest => cases b <;> rfl

lemma saveToDBB_mem (st : Storage) (gs gt : String) (info : GhostDDLInfo) (orc : List Bool) :
    (saveToDBB st gs gt info orc).st.mem = st.mem := by
  cases orc with
  | nil => rfl
  | cons b rest => cases b <;> rfl

lemma save_dup (st : Storage) (gs gt rs rt ddl : String) (orc : List Bool)
    (h : lastSaved st gs gt = some ddl) :
    Storage.Save st gs gt rs rt ddl orc = ⟨none, st, [Event.lockW, Event.unlockW]⟩ := by
  have hb : (baseRec st gs gt rs rt).DDLs.getLast? = some ddl := by
    rw [baseRec_getLast]; exact h
  simp [Storage.Save, saveB, withWriteLock, hb]

lemma save_notdup (st : Storage) (gs gt rs rt ddl : String) (orc : List Bool)
    (h : lastSaved st gs gt ≠ some ddl) :
    Storage.Save st gs gt rs rt ddl orc =
      withWriteLock (saveToDBB
        ⟨memSet gs gt ⟨(baseRec st gs gt rs rt).Schema, (baseRec st gs gt rs rt).Table,
          (baseRec st gs gt rs rt).DDLs ++ [ddl]⟩ st.mem, st.db⟩
        gs gt ⟨(baseRec st gs gt rs rt).Schema, (baseRec st gs gt rs rt).Table,
          (baseRec st gs gt rs rt).DDLs ++ [ddl]⟩ orc) := by
  have hb : ¬ (baseRec st gs gt rs rt).DDLs.getLast? = some ddl := by
    rw [baseRec_getLast]; exact h
  simp [Storage.Save, saveB, hb]

lemma save_notdup_mem (st : Storage) (gs gt rs rt ddl : String) (orc : List Bool)
    (h : lastSaved st gs gt ≠ some ddl) :
    (Storage.Save st gs gt rs rt ddl orc).st.mem =
      memSet gs gt ⟨(baseRec st gs gt rs rt).Schema, (baseRec st gs gt rs rt).Table,
        (baseRec st gs gt rs rt).DDLs ++ [ddl]⟩ st.mem := by
  rw [save_notdup st gs gt rs rt ddl orc h]
  simp [withWriteLock, saveToDBB_mem]

lemma lastSaved_of_memGet (st : Storage) (gs gt : String) (rec : GhostDDLInfo)
    (h : memGet st.mem gs gt = some rec) : lastSaved st gs gt = rec.DDLs.getLast? := by
  simp [lastSaved, h]

lemma save_step_mem (st : Storage) (gs gt rs rt d : String) (orc : List Bool)
    (rec : GhostDDLInfo) (hm : memGet st.mem gs gt = some rec)
    (hd : rec.DDLs.getLast? ≠ some d) :
    memGet (Storage.Save st gs gt rs rt d orc).st.mem gs gt =
      some ⟨rec.Schema, rec.Table, rec.DDLs ++ [d]⟩ := by
  have hl : lastSaved st gs gt ≠ some d := by rw [lastSaved_of_memGet st gs gt rec hm]; exact hd
  have hb : baseRec st gs gt rs rt = rec := by simp [baseRec, hm]
  rw [save_notdup_mem st gs gt rs rt d orc hl, hb, memGet_memSet_self]

lemma save_fresh_mem (st : Storage) (gs gt rs rt d : String) (orc : List Bool)
    (h : memGet st.mem gs gt = none) :
    memGet (Storage.Save st gs gt rs rt d orc).st.mem gs gt = some ⟨rs, rt, [d]⟩ := by
  have hl : lastSaved st gs gt ≠ some d := by simp [lastSaved, h]
  have hb : baseRec st gs gt rs rt = ⟨rs, rt, []⟩ := by simp [baseRec, h]
  rw [save_notdup_mem st gs gt rs rt d orc hl, hb, memGet_memSet_self]
  rfl

lemma dbCalls_withWriteLock (o : OpOut) :
    dbCalls (withWriteLock o).trace = dbCalls o.trace := by
  simp [withWriteLock, dbCalls, List.filter_append, Event.isLockEvent]

/-! ### Claim theorems -/

/-- C3: `Save` is a successful no-op (state untouched, no durable call, nil
error) exactly when the key's record exists and its last recorded DDL equals
`ddl`; otherwise `ddl` is appended.  Only immediately adjacent duplicates are
suppressed: saving `d1`, `d2`, `d1` yields `DDLs = [d1, d2, d1]`, while saving
the same `d` twice in a row records it exactly once. -/
theorem c3_save_adjacent_duplicate_suppression :
    (∀ (st : Storage) (gs gt rs rt ddl : String) (orc : List Bool),
      ((Storage.Save st gs gt rs rt ddl orc).res = none ∧
       (Storage.Save st gs gt rs rt ddl orc).st = st ∧
       dbCalls (Storage.Save st gs gt rs rt ddl orc).trace = [])
      ↔ lastSaved st gs gt = some ddl) ∧
    (∀ (st : Storage) (gs gt rs rt ddl : String) (orc : List Bool),
      lastSaved st gs gt ≠ some ddl →
      memGet (Storage.Save st gs gt rs rt ddl orc).st.mem gs gt =
        some ⟨(baseRec st gs gt rs rt).Schema, (baseRec st gs gt rs rt).Table,
              (baseRec st gs gt rs rt).DDLs ++ [ddl]⟩) ∧
    (∀ (st : Storage) (gs gt rs rt d1 d2 : String),
      memGet st.mem gs gt = none → d1 ≠ d2 →
      memGet (((st.Save gs gt rs rt d1 []).st.Save gs gt rs rt d2 []).st.Save
          gs gt rs rt d1 []).st.mem gs gt = some ⟨rs, rt, [d1, d2, d1]⟩) ∧
    (∀ (st : Storage) (gs gt rs rt d : String),
      memGet st.mem gs gt = none →
      ((st.Save gs gt rs rt d []).st.Save gs gt rs rt d []).res = none ∧
      dbCalls ((st.Save gs gt rs rt d []).st.Save gs gt rs rt d []).trace = [] ∧
      memGet ((st.Save gs gt rs rt d []).st.Save gs gt rs rt d []).st.mem gs gt =
        some ⟨rs, rt, [d]⟩) := by
  refine ⟨?_, ?_, ?_, ?_⟩
  · intro st gs gt rs rt ddl orc
    constructor
    · rintro ⟨h1, h2, h3⟩
      by_contra hnd
      rw [save_notdup st gs gt rs rt ddl orc hnd, dbCalls_withWriteLock,
        ] at h3
      simp [saveToDBB_trace, dbCalls, Event.isLockEvent] at h3
    · intro h
      rw [save_dup st gs gt rs rt ddl orc h]
      exact ⟨rfl, rfl, rfl⟩
  · intro st gs gt rs rt ddl orc h
    rw [save_notdup_mem st gs gt rs rt ddl orc h, memGet_memSet_self]
  · intro st gs gt rs rt d1 d2 h hne
    have s1 := save_fresh_mem st gs gt rs rt d1 [] h
    have s2 := save_step_mem (st.Save gs gt rs rt d1 []).st gs gt rs rt d2 [] ⟨rs, rt, [d1]⟩ s1
      (by simpa using hne)
    have s3 := save_step_mem ((st.Save gs gt rs rt d1 []).st.Save gs gt rs rt d2 []).st
      gs gt rs rt d1 [] ⟨rs, rt, [d1] ++ [d2]⟩ (by simpa using s2)
      (by simpa [List.getLast?_concat] using hne.symm)
    simpa using s3
  · intro st gs gt rs rt d h
    have s1 := save_fresh_mem st gs gt rs rt d [] h
    have hdup : lastSaved (st.Save gs gt rs rt d []).st gs gt = some d := by
      rw [lastSaved_of_memGet _ gs gt ⟨rs, rt, [d]⟩ s1]; simp
    rw [save_dup _ gs gt rs rt d [] hdup]
    exact ⟨rfl, rfl, s1⟩

/-- Witness for C3 at concrete inputs. -/
theorem c3_witness :
    memGet (Storage.Save exStore "g1" "t1" "rs" "rt" "ddl3" []).st.mem "g1" "t1" =
      some ⟨"realdb", "realtbl", ["ddl1", "ddl2", "ddl3"]⟩ ∧
    memGet (((Storage.Save ⟨[], []⟩ "g" "t" "rs" "rt" "a" []).st.Save "g" "t" "rs" "rt" "b"
        []).st.Save "g" "t" "rs" "rt" "a" []).st.mem "g" "t" =
      some ⟨"rs", "rt", ["a", "b", "a"]⟩ ∧
    ((Storage.Save ⟨[], []⟩ "g" "t" "rs" "rt" "a" []).st.Save "g" "t" "rs" "rt" "a" []).res =
      none ∧
    memGet ((Storage.Save ⟨[], []⟩ "g" "t" "rs" "rt" "a" []).st.Save "g" "t" "rs" "rt" "a"
        []).st.mem "g" "t" = some ⟨"rs", "rt", ["a"]⟩ := by
  refine ⟨?_, ?_, ?_, ?_⟩
  · exact (c3_save_adjacent_duplicate_suppression.2.1 exStore "g1" "t1" "rs" "rt" "ddl3" []
      (by decide)).trans (by decide)
  · exact c3_save_adjacent_duplicate_suppression.2.2.1 ⟨[], []⟩ "g" "t" "rs" "rt" "a" "b"
      (by decide) (by decide)
  · exact (c3_save_adjacent_duplicate_suppression.2.2.2 ⟨[], []⟩ "g" "t" "rs" "rt" "a"
      (by decide)).1
  · exact (c3_save_adjacent_duplicate_suppression.2.2.2 ⟨[], []⟩ "g" "t" "rs" "rt" "a"
      (by decide)).2.2

/-- C6: absent-key lookups and deletions are benign no-ops: `Get` returns
`none` (with no error — its type has no error outcome, mirroring the nil
return of the source) when the ghost schema or the ghost table is absent, and
`Delete` on an absent ghost schema returns nil having made no durable call and
changed no state. -/
theorem c6_absent_key_noops :
    (∀ (st : Storage) (gs gt : String), alookup gs st.mem = none →
      (Storage.Get st gs gt).1 = none) ∧
    (∀ (st : Storage) (gs gt : String) (ms : TableMap),
      alookup gs st.mem = some ms → alookup gt ms = none →
      (Storage.Get st gs gt).1 = none) ∧
    (∀ (st : Storage) (gs gt : String) (orc : List Bool), alookup gs st.mem = none →
      (Storage.Delete st gs gt orc).res = none ∧
      (Storage.Delete st gs gt orc).st = st ∧
      dbCalls (Storage.Delete st gs gt orc).trace = []) := by
  refine ⟨?_, ?_, ?_⟩
  · intro st gs gt h
    simp [Storage.Get, memGet, h]
  · intro st gs gt ms h1 h2
    simp [Storage.Get, memGet, h1, h2]
  · intro st gs gt orc h
    simp [Storage.Delete, deleteB, h, withWriteLock, dbCalls, Event.isLockEvent]

/-- Witness for C6 at concrete inputs. -/
theorem c6_witness :
    (Storage.Get exStore "gX" "t1").1 = none ∧
    (Storage.Get exStore "g1" "tX").1 = none ∧
    (Storage.Delete exStore "gX" "t1" []).res = none ∧
    (Storage.Delete exStore "gX" "t1" []).st = exStore ∧
    dbCalls (Storage.Delete exStore "gX" "t1" []).trace = [] := by
  obtain ⟨h1, h2, h3⟩ := c6_absent_key_noops.2.2 exStore "gX" "t1" [] (by decide)
  exact ⟨c6_absent_key_noops.1 exStore "gX" "t1" (by decide),
    c6_absent_key_noops.2.1 exStore "g1" "tX" [("t1", exRec)] (by decide) (by decide),
    h1, h2, h3⟩

/-- C9: `Save` mutates memory before the durable write.  When the durable
write fails, the error is returned but the DDL stays appended in memory and
the durable mirror is unchanged; an immediate retry of the same `Save` is then
suppressed by the adjacent-duplicate rule and returns nil without any durable
call. -/
theorem c9_save_not_atomic_on_db_failure :
    ∀ (st : Storage) (gs gt rs rt ddl : String), lastSaved st gs gt ≠ some ddl →
      (Storage.Save st gs gt rs rt ddl [false]).res = some StoreError.downstream ∧
      (Storage.Save st gs gt rs rt ddl [false]).st.db = st.db ∧
      memGet (Storage.Save st gs gt rs rt ddl [false]).st.mem gs gt =
        some ⟨(baseRec st gs gt rs rt).Schema, (baseRec st gs gt rs rt).Table,
              (baseRec st gs gt rs rt).DDLs ++ [ddl]⟩ ∧
      ∀ orc2 : List Bool,
        (Storage.Save (Storage.Save st gs gt rs rt ddl [false]).st gs gt rs rt ddl orc2).res =
          none ∧
        (Storage.Save (Storage.Save st gs gt rs rt ddl [false]).st gs gt rs rt ddl orc2).st =
          (Storage.Save st gs gt rs rt ddl [false]).st ∧
        dbCalls (Storage.Save (Storage.Save st gs gt rs rt ddl [false]).st gs gt rs rt ddl
          orc2).trace = [] := by
  intro st gs gt rs rt ddl h
  have hmem := save_notdup_mem st gs gt rs rt ddl [false] h
  have hmg : memGet (Storage.Save st gs gt rs rt ddl [false]).st.mem gs gt =
      some ⟨(baseRec st gs gt rs rt).Schema, (baseRec st gs gt rs rt).Table,
        (baseRec st gs gt rs rt).DDLs ++ [ddl]⟩ := by
    rw [hmem, memGet_memSet_self]
  have hdup : lastSaved (Storage.Save st gs gt rs rt ddl [false]).st gs gt = some ddl := by
    rw [lastSaved_of_memGet _ gs gt _ hmg]
    exact List.getLast?_concat _
  refine ⟨?_, ?_, hmg, ?_⟩
  · rw [save_notdup st gs gt rs rt ddl [false] h]
    simp [withWriteLock, saveToDBB, oracleNext]
  · rw [save_notdup st gs gt rs rt ddl [false] h]
    simp [withWriteLock, saveToDBB, oracleNext]
  · intro orc2
    rw [save_dup _ gs gt rs rt ddl orc2 hdup]
    exact ⟨rfl, rfl, rfl⟩

/-- Witness for C9 at a concrete input. -/
theorem c9_witness :
    (Storage.Save exStore "g1" "t1" "rs" "rt" "ddl3" [false]).res =
      some StoreError.downstream ∧
    (Storage.Save exStore "g1" "t1" "rs" "rt" "ddl3" [false]).st.db = exStore.db ∧
    (Storage.Save (Storage.Save exStore "g1" "t1" "rs" "rt" "ddl3" [false]).st "g1" "t1"
      "rs" "rt" "ddl3" []).res = none := by
  obtain ⟨h1, h2, _, h4⟩ :=
    c9_save_not_atomic_on_db_failure exStore "g1" "t1" "rs" "rt" "ddl3" (by decide)
  exact ⟨h1, h2, (h4 []).1⟩

/-- C10: a `Save` on a key whose record already exists ignores the
`realSchema`/`realTable` arguments: the stored record keeps its `Schema` and
`Table`, and only `DDLs` can change (unchanged, or with `ddl` appended). -/
theorem c10_save_ignores_real_names_on_existing_record :
    ∀ (st : Storage) (gs gt rs rt ddl : String) (orc : List Bool) (rec : GhostDDLInfo),
      memGet st.mem gs gt = some rec →
      ∃ rec2, memGet (Storage.Save st gs gt rs rt ddl orc).st.mem gs gt = some rec2 ∧
        rec2.Schema = rec.Schema ∧ rec2.Table = rec.Table ∧
        (rec2.DDLs = rec.DDLs ∨ rec2.DDLs = rec.DDLs ++ [ddl]) := by
  intro st gs gt rs rt ddl orc rec hm
  by_cases hd : rec.DDLs.getLast? = some ddl
  · have hdup : lastSaved st gs gt = some ddl := by
      rw [lastSaved_of_memGet st gs gt rec hm]; exact hd
    rw [save_dup st gs gt rs rt ddl orc hdup]
    exact ⟨rec, hm, rfl, rfl, Or.inl rfl⟩
  · exact ⟨⟨rec.Schema, rec.Table, rec.DDLs ++ [ddl]⟩,
      save_step_mem st gs gt rs rt ddl orc rec hm hd, rfl, rfl, Or.inr rfl⟩

/-- Witness for C10 at a concrete input. -/
theorem c10_witness :
    ∃ rec2, memGet (Storage.Save exStore "g1" "t1" "otherS" "otherT" "ddl3" []).st.mem
        "g1" "t1" = some rec2 ∧
      rec2.Schema = exRec.Schema ∧ rec2.Table = exRec.Table ∧
      (rec2.DDLs = exRec.DDLs ∨ rec2.DDLs = exRec.DDLs ++ ["ddl3"]) :=
  c10_save_ignores_real_names_on_existing_record exStore "g1" "t1" "otherS" "otherT" "ddl3"
    [] exRec (by decide)

/-! ### Trace-shape lemmas -/

lemma noLockEvents_append (a b : List Event) :
    noLockEvents (a ++ b) = (noLockEvents a && noLockEvents b) := by
  simp [noLockEvents, List.all_append]

lemma dbCalls_of_noLock (t : List Event) (h : noLockEvents t = true) : dbCalls t = t :=
  List.filter_eq_self.mpr (List.all_eq_true.mp h)

lemma saveToDBB_cases (st : Storage) (gs gt : String) (info : GhostDDLInfo) (orc : List Bool) :
    saveToDBB st gs gt info orc =
      ⟨none, ⟨st.mem, aset (gs, gt) info st.db⟩, (oracleNext orc).2,
        [Event.dbReplace gs gt info]⟩ ∨
    saveToDBB st gs gt info orc =
      ⟨some .downstream, st, (oracleNext orc).2, [Event.dbReplace gs gt info]⟩ := by
  cases orc with
  | nil => left; rfl
  | cons b rest => cases b with
    | false => right; rfl
    | true => left; rfl

lemma deleteB_trace_cases (st : Storage) (gs gt : String) (orc : List Bool) :
    (deleteB st gs gt orc).trace = [] ∨
    (deleteB st gs gt orc).trace = [Event.dbDelete gs gt] := by
  cases h : alookup gs st.mem with
  | none => left; simp [deleteB, h]
  | some ms =>
    right
    cases orc with
    | nil => simp [deleteB, h, oracleNext]
    | cons b rest => cases b <;> simp [deleteB, h, oracleNext]

lemma noLock_deleteB (st : Storage) (gs gt : String) (orc : List Bool) :
    noLockEvents (deleteB st gs gt orc).trace = true := by
  rcases deleteB_trace_cases st gs gt orc with h | h <;> rw [h] <;> rfl

lemma noLock_replace_cons_delete (a b : String) (r : GhostDDLInfo) (st : Storage)
    (sc tb : String) (orc : List Bool) :
    noLockEvents (Event.dbReplace a b r :: (deleteB st sc tb orc).trace) = true := by
  rcases deleteB_trace_cases st sc tb orc with hd | hd <;> rw [hd] <;> rfl

lemma noLock_cauStep (rs : String) (hc : Bool) (tm : List (String × String))
    (fn : String → String) (sc tb : String) (info : GhostDDLInfo) (st : Storage)
    (orc : List Bool) :
    noLockEvents (cauStep rs hc tm fn sc tb info st orc).trace = true := by
  by_cases htc : ((alookup tb tm).isSome || hc) = true
  · rcases saveToDBB_cases ⟨memSet sc tb ⟨info.Schema, fn ((alookup tb tm).getD tb),
        info.DDLs⟩ st.mem, st.db⟩ rs ((alookup tb tm).getD tb)
        ⟨info.Schema, fn ((alookup tb tm).getD tb), info.DDLs⟩ orc with hs | hs
    · simp only [cauStep, htc, if_true, hs]
      exact noLock_replace_cons_delete _ _ _ _ _ _ _
    · simp only [cauStep, htc, if_true, hs]
      rfl
  · simp only [cauStep, htc, if_false]
    rfl

lemma noLock_cauTables (rs : String) (hc : Bool) (tm : List (String × String))
    (fn : String → String) (sc : String) (entries : List (String × GhostDDLInfo))
    (st : Storage) (orc : List Bool) :
    noLockEvents (cauTables rs hc tm fn sc entries st orc).trace = true := by
  induction entries generalizing st orc with
  | nil => rfl
  | cons e rest ih =>
    obtain ⟨tb, info⟩ := e
    cases hres : (cauStep rs hc tm fn sc tb info st orc).res with
    | some e2 => simp [cauTables, hres, noLock_cauStep]
    | none => simp [cauTables, hres, noLockEvents_append, noLock_cauStep, ih]

lemma noLock_cauSchemas (sm : List (String × String))
    (tm : List (String × List (String × String))) (fn : String → String)
    (entries : List (String × TableMap)) (st : Storage) (orc : List Bool) :
    noLockEvents (cauSchemas sm tm fn entries st orc).trace = true := by
  induction entries generalizing st orc with
  | nil => rfl
  | cons e rest ih =>
    obtain ⟨sc, tms⟩ := e
    cases hres : (cauTables ((alookup sc sm).getD sc) (alookup sc sm).isSome
        ((alookup sc tm).getD []) fn sc tms st orc).res with
    | some e2 => simp [cauSchemas, hres, noLock_cauTables]
    | none => simp [cauSchemas, hres, noLockEvents_append, noLock_cauTables, ih]

lemma cauB_trace (st : Storage) (sm : List (String × String))
    (tm : List (String × List (String × String))) (fn : String → String)
    (orc : List Bool) :
    (cauB st sm tm fn orc).trace = (cauSchemas sm tm fn st.mem st orc).trace := by
  cases hres : (cauSchemas sm tm fn st.mem st orc).res <;> simp [cauB, hres]

lemma noLock_saveB (st : Storage) (gs gt rs rt ddl : String) (orc : List Bool) :
    noLockEvents (saveB st gs gt rs rt ddl orc).trace = true := by
  by_cases hd : (baseRec st gs gt rs rt).DDLs.getLast? = some ddl
  · simp [saveB, hd, noLockEvents]
  · simp [saveB, hd, saveToDBB_trace, noLockEvents, Event.isLockEvent]

lemma noLock_clearB (st : Storage) (orc : List Bool) :
    noLockEvents (clearB st orc).trace = true := by
  cases orc with
  | nil => rfl
  | cons b rest => cases b <;> rfl

lemma noLock_loadB (parse : String → Option GhostDDLInfo) (st : Storage) (queryOk : Bool)
    (rows : List (String × String × String)) :
    noLockEvents (loadB parse st queryOk rows).trace = true := by
  cases queryOk <;> rfl

lemma writeLocked_withWriteLock (o : OpOut) (h : noLockEvents o.trace = true) :
    writeLocked (withWriteLock o).trace :=
  ⟨o.trace, rfl, h⟩

/-- C8 (amended): every public operation except `ResetConn` holds the lock for
its entire duration — the read lock for `Get`, the write lock for `Save`,
`Delete`, `Clear`, `Load`, `Close` and `CheckAndUpdate` — while `ResetConn`
performs its downstream call without touching the lock at all. -/
theorem c8_lock_discipline :
    (∀ (st : Storage) (gs gt : String), readLocked (Storage.Get st gs gt).2) ∧
    (∀ (st : Storage) (gs gt rs rt ddl : String) (orc : List Bool),
      writeLocked (Storage.Save st gs gt rs rt ddl orc).trace) ∧
    (∀ (st : Storage) (gs gt : String) (orc : List Bool),
      writeLocked (Storage.Delete st gs gt orc).trace) ∧
    (∀ (st : Storage) (orc : List Bool), writeLocked (Storage.Clear st orc).trace) ∧
    (∀ (parse : String → Option GhostDDLInfo) (st : Storage) (queryOk : Bool)
      (rows : List (String × String × String)),
      writeLocked (Storage.Load parse st queryOk rows).trace) ∧
    (∀ st : Storage, writeLocked (Storage.Close st).trace) ∧
    (∀ (st : Storage) (sm : List (String × String))
      (tm : List (String × List (String × String))) (fn : String → String)
      (orc : List Bool), writeLocked (Storage.CheckAndUpdate st sm tm fn orc).trace) ∧
    (∀ (st : Storage) (connOk : Bool),
      noLockEvents (Storage.ResetConn st connOk).trace = true ∧
      ¬ writeLocked (Storage.ResetConn st connOk).trace ∧
      ¬ readLocked (Storage.ResetConn st connOk).trace) := by
  refine ⟨?_, ?_, ?_, ?_, ?_, ?_, ?_, ?_⟩
  · intro st gs gt; exact ⟨[], rfl, rfl⟩
  · intro st gs gt rs rt ddl orc
    exact writeLocked_withWriteLock _ (noLock_saveB st gs gt rs rt ddl orc)
  · intro st gs gt orc
    exact writeLocked_withWriteLock _ (noLock_deleteB st gs gt orc)
  · intro st orc
    exact writeLocked_withWriteLock _ (noLock_clearB st orc)
  · intro parse st queryOk rows
    exact writeLocked_withWriteLock _ (noLock_loadB parse st queryOk rows)
  · intro st
    exact writeLocked_withWriteLock _ rfl
  · intro st sm tm fn orc
    refine writeLocked_withWriteLock _ ?_
    rw [cauB_trace]
    exact noLock_cauSchemas sm tm fn st.mem st orc
  · intro st connOk
    refine ⟨rfl, ?_, ?_⟩ <;> rintro ⟨mid, h, -⟩ <;>
      simp [Storage.ResetConn] at h

/-- Witness for C8's amended theorem at concrete inputs. -/
theorem c8_witness :
    readLocked (Storage.Get exStore "g1" "t1").2 ∧
    writeLocked (Storage.Save exStore "g1" "t1" "rs" "rt" "d" []).trace ∧
    noLockEvents (Storage.ResetConn exStore true).trace = true :=
  ⟨c8_lock_discipline.1 exStore "g1" "t1",
   c8_lock_discipline.2.1 exStore "g1" "t1" "rs" "rt" "d" [],
   (c8_lock_discipline.2.2.2.2.2.2.2 exStore true).1⟩

/-- C8 counterexample: the claim says every public operation, `ResetConn`
included, holds the write lock for its duration; but `ResetConn`'s trace is
the bare connection-reset call, with no lock acquisition at all. -/
theorem c8_counterexample_resetconn_unlocked :
    (Storage.ResetConn exStore true).trace = [Event.dbResetConn] ∧
    ¬ writeLocked (Storage.ResetConn exStore true).trace ∧
    ¬ readLocked (Storage.ResetConn exStore true).trace := by
  refine ⟨rfl, ?_, ?_⟩ <;> rintro ⟨mid, h, -⟩ <;>
    simp [Storage.ResetConn] at h

/-! ### Write-before-delete structure of reconciliation traces -/

lemma wbd_nil : writeBeforeDelete [] := ⟨[], rfl⟩

lemma wbd_single (a b : String) (r : GhostDDLInfo) :
    writeBeforeDelete [Event.dbReplace a b r] :=
  ⟨[((a, b, r), none)], rfl⟩

lemma wbd_pair (a b c d : String) (r : GhostDDLInfo) :
    writeBeforeDelete [Event.dbReplace a b r, Event.dbDelete c d] :=
  ⟨[((a, b, r), some (c, d))], rfl⟩

lemma wbd_append (t1 t2 : List Event) (h1 : writeBeforeDelete t1)
    (h2 : writeBeforeDelete t2) : writeBeforeDelete (t1 ++ t2) := by
  obtain ⟨l1, rfl⟩ := h1
  obtain ⟨l2, rfl⟩ := h2
  exact ⟨l1 ++ l2, by simp⟩

lemma wbd_replace_cons_delete (a b : String) (r : GhostDDLInfo) (st : Storage)
    (sc tb : String) (orc : List Bool) :
    writeBeforeDelete (Event.dbReplace a b r :: (deleteB st sc tb orc).trace) := by
  rcases deleteB_trace_cases st sc tb orc with hd | hd <;> rw [hd]
  · exact wbd_single a b r
  · exact wbd_pair a b sc tb r

lemma wbd_cauStep (rs : String) (hc : Bool) (tm : List (String × String))
    (fn : String → String) (sc tb : String) (info : GhostDDLInfo) (st : Storage)
    (orc : List Bool) :
    writeBeforeDelete (cauStep rs hc tm fn sc tb info st orc).trace := by
  by_cases htc : ((alookup tb tm).isSome || hc) = true
  · rcases saveToDBB_cases ⟨memSet sc tb ⟨info.Schema, fn ((alookup tb tm).getD tb),
        info.DDLs⟩ st.mem, st.db⟩ rs ((alookup tb tm).getD tb)
        ⟨info.Schema, fn ((alookup tb tm).getD tb), info.DDLs⟩ orc with hs | hs
    · simp only [cauStep, htc, if_true, hs]
      exact wbd_replace_cons_delete _ _ _ _ _ _ _
    · simp only [cauStep, htc, if_true, hs]
      exact wbd_single _ _ _
  · simp only [cauStep, htc, if_false]
    exact wbd_nil

lemma wbd_cauTables (rs : String) (hc : Bool) (tm : List (String × String))
    (fn : String → String) (sc : String) (entries : List (String × GhostDDLInfo))
    (st : Storage) (orc : List Bool) :
    writeBeforeDelete (cauTables rs hc tm fn sc entries st orc).trace := by
  induction entries generalizing st orc with
  | nil => exact wbd_nil
  | cons e rest ih =>
    obtain ⟨tb, info⟩ := e
    cases hres : (cauStep rs hc tm fn sc tb info st orc).res with
    | some e2 =>
      simp only [cauTables, hres]
      exact wbd_cauStep rs hc tm fn sc tb info st orc
    | none =>
      simp only [cauTables, hres]
      exact wbd_append _ _ (wbd_cauStep rs hc tm fn sc tb info st orc) (ih _ _)

lemma wbd_cauSchemas (sm : List (String × String))
    (tm : List (String × List (String × String))) (fn : String → String)
    (entries : List (String × TableMap)) (st : Storage) (orc : List Bool) :
    writeBeforeDelete (cauSchemas sm tm fn entries st orc).trace := by
  induction entries generalizing st orc with
  | nil => exact wbd_nil
  | cons e rest ih =>
    obtain ⟨sc, tms⟩ := e
    cases hres : (cauTables ((alookup sc sm).getD sc) (alookup sc sm).isSome
        ((alookup sc tm).getD []) fn sc tms st orc).res with
    | some e2 =>
      simp only [cauSchemas, hres]
      exact wbd_cauTables _ _ _ fn sc tms st orc
    | none =>
      simp only [cauSchemas, hres]
      exact wbd_append _ _ (wbd_cauTables _ _ _ fn sc tms st orc) (ih _ _)

/-- C4: in every run of `CheckAndUpdate`, the durable calls decompose into
per-record migration segments — the `REPLACE` of the record under its new key,
followed (optionally, and only after it) by the `DELETE` of its old row.  In
particular at no point of the durable-call sequence is an old row deleted
before the corresponding new row has been written. -/
theorem c4_reconcile_writes_new_row_before_deleting_old (st : Storage)
    (schemaMap : List (String × String))
    (tablesMap : List (String × List (String × String))) (fn : String → String)
    (orc : List Bool) :
    writeBeforeDelete (dbCalls (Storage.CheckAndUpdate st schemaMap tablesMap fn orc).trace) := by
  rw [Storage.CheckAndUpdate, dbCalls_withWriteLock, cauB_trace,
    dbCalls_of_noLock _ (noLock_cauSchemas schemaMap tablesMap fn st.mem st orc)]
  exact wbd_cauSchemas schemaMap tablesMap fn st.mem st orc

/-- Witness for C4 at a concrete input. -/
theorem c4_witness :
    writeBeforeDelete
      (dbCalls (exStore.CheckAndUpdate [("g1", "g2")] [] (fun x => x) []).trace) :=
  c4_reconcile_writes_new_row_before_deleting_old exStore [("g1", "g2")] [] (fun x => x) []

/-! ### Reconciliation loses the in-memory record (C1, C2) -/

/-- C1 evaluated at the failing input: starting from a store holding `exRec`
under ghost key (g1, t1), a successful `CheckAndUpdate` with schema rename
{g1 → g2} (and likewise a table-only rename {t1 → t2}) migrates the durable
row to the new key, but `Get` on the new key returns not-found — the code
deletes the in-memory entry (`s.delete`) and never re-inserts it under the new
key, so the claimed "`Get(g2, t1)` returns the same DDLs" fails. -/
theorem c1_reconcile_drops_in_memory_record :
    ((exStore.CheckAndUpdate [("g1", "g2")] [] (fun x => x) []).res = none ∧
     (Storage.Get (exStore.CheckAndUpdate [("g1", "g2")] [] (fun x => x) []).st "g2" "t1").1 =
       none ∧
     (Storage.Get (exStore.CheckAndUpdate [("g1", "g2")] [] (fun x => x) []).st "g1" "t1").1 =
       none ∧
     dbGet (exStore.CheckAndUpdate [("g1", "g2")] [] (fun x => x) []).st.db "g2" "t1" =
       some ⟨"realdb", "t1", ["ddl1", "ddl2"]⟩) ∧
    ((exStore.CheckAndUpdate [] [("g1", [("t1", "t2")])] (fun x => x) []).res = none ∧
     (Storage.Get (exStore.CheckAndUpdate [] [("g1", [("t1", "t2")])] (fun x => x) []).st
       "g1" "t2").1 = none ∧
     (Storage.Get (exStore.CheckAndUpdate [] [("g1", [("t1", "t2")])] (fun x => x) []).st
       "g1" "t1").1 = none ∧
     dbGet (exStore.CheckAndUpdate [] [("g1", [("t1", "t2")])] (fun x => x) []).st.db
       "g1" "t2" = some ⟨"realdb", "t2", ["ddl1", "ddl2"]⟩) := by
  decide

/-- C2 evaluated at the failing input: the layers agree before, the
reconciliation reports success, and afterwards the durable mirror holds the
migrated row (g2, t1) while the in-memory map holds nothing — the two layers
disagree after a successful public mutating operation. -/
theorem c2_reconcile_breaks_layer_agreement :
    agrees exStore.mem exStore.db ∧
    (exStore.CheckAndUpdate [("g1", "g2")] [] (fun x => x) []).res = none ∧
    ¬ agrees (exStore.CheckAndUpdate [("g1", "g2")] [] (fun x => x) []).st.mem
        (exStore.CheckAndUpdate [("g1", "g2")] [] (fun x => x) []).st.db := by
  refine ⟨?_, by decide, fun h => absurd (h "g2" "t1") (by decide)⟩
  intro gs gt
  by_cases h1 : "g1" = gs <;> by_cases h2 : "t1" = gt <;>
    simp [memGet, dbGet, alookup, exStore, exRec, h1, h2]

/-! ### Load surfaces metadata corruption (C7) -/

lemma loadRows_bad_row (parse : String → Option GhostDDLInfo)
    (rows : List (String × String × String)) :
    ∀ (m : Mem) (row : String × String × String), row ∈ rows → parse row.2.2 = none →
      (loadRows parse rows m).1 = some StoreError.invalidMeta := by
  induction rows with
  | nil => intro m row hmem hp; cases hmem
  | cons r rest ih =>
    intro m row hmem hp
    cases hpr : parse r.2.2 with
    | none => simp [loadRows, hpr]
    | some rec =>
      rcases List.mem_cons.mp hmem with heq | hmem2
      · subst heq; simp [hp] at hpr
      · simp only [loadRows, hpr]
        exact ih _ row hmem2 hp

lemma loadRows_ok_parses (parse : String → Option GhostDDLInfo)
    (rows : List (String × String × String)) :
    ∀ (m : Mem), (loadRows parse rows m).1 = none →
      ∀ row ∈ rows, (parse row.2.2).isSome = true := by
  induction rows with
  | nil => intro m hok row hmem; cases hmem
  | cons r rest ih =>
    intro m hok row hmem
    cases hpr : parse r.2.2 with
    | none => simp [loadRows, hpr] at hok
    | some rec =>
      rcases List.mem_cons.mp hmem with heq | hmem2
      · subst heq; simp [hpr]
      · simp only [loadRows, hpr] at hok
        exact ih _ hok row hmem2

/-- C7: if any delivered row's payload fails to deserialize, `Load` returns
the metadata-corruption error (never silently skipping the row), and that
error kind is distinct from the downstream-store error kind; conversely a nil
`Load` result implies every row's payload deserialized. -/
theorem c7_load_surfaces_metadata_corruption :
    (∀ (parse : String → Option GhostDDLInfo) (st : Storage)
      (rows : List (String × String × String)) (row : String × String × String),
      row ∈ rows → parse row.2.2 = none →
      (Storage.Load parse st true rows).res = some StoreError.invalidMeta) ∧
    (∀ (parse : String → Option GhostDDLInfo) (st : Storage)
      (rows : List (String × String × String)),
      (Storage.Load parse st true rows).res = none →
      ∀ row ∈ rows, (parse row.2.2).isSome = true) ∧
    StoreError.invalidMeta ≠ StoreError.downstream := by
  refine ⟨?_, ?_, by decide⟩
  · intro parse st rows row hmem hp
    have h := loadRows_bad_row parse rows st.mem row hmem hp
    simpa [Storage.Load, loadB, withWriteLock] using h
  · intro parse st rows hok row hmem
    have hok2 : (loadRows parse rows st.mem).1 = none := by
      simpa [Storage.Load, loadB, withWriteLock] using hok
    exact loadRows_ok_parses parse rows st.mem hok2 row hmem

/-- Witness for C7 at concrete inputs. -/
theorem c7_witness :
    (Storage.Load exParse ⟨[], []⟩ true [("g1", "t1", "bad")]).res =
      some StoreError.invalidMeta ∧
    (∀ row ∈ ([("g1", "t1", "good")] : List (String × String × String)),
      (exParse row.2.2).isSome = true) := by
  constructor
  · exact c7_load_surfaces_metadata_corruption.1 exParse ⟨[], []⟩ [("g1", "t1", "bad")]
      ("g1", "t1", "bad") (by decide) (by decide)
  · exact c7_load_surfaces_metadata_corruption.2.1 exParse ⟨[], []⟩ [("g1", "t1", "good")]
      (by decide)

/-! ### `Get` returns a shallow copy (C5) -/

lemma getD_set_self {α : Type} (l : List α) (n : Nat) (a d : α) (h : n < l.length) :
    (l.set n a).getD n d = a := by
  induction l generalizing n with
  | nil => simp at h
  | cons x xs ih =>
    cases n with
    | zero => rfl
    | succ k =>
      have hk : k < xs.length := by simpa using h
      simpa [List.set, List.getD] using ih k hk

/-- C5 counterexample: the claim says no mutation a caller performs on the
value returned by `Get` — including on its `DDLs` elements — can change the
store's internal state.  But the source's `*clone = *info` copy is shallow:
the returned record shares the `DDLs` backing array (heap cell 0 here), so the
caller-side element write `clone.DDLs[0] = "mutated"` changes the DDL history
the store itself sees for (g1, t1) from ["ddl1", "ddl2"] to
["mutated", "ddl2"]. -/
theorem c5_counterexample_shallow_copy :
    getShallowCopy exMemRef "g1" "t1" = some ⟨"realdb", "realtbl", 0⟩ ∧
    storeDDLsView exHeap exMemRef "g1" "t1" = some ["ddl1", "ddl2"] ∧
    storeDDLsView (heapWriteElem exHeap 0 0 "mutated") exMemRef "g1" "t1" =
      some ["mutated", "ddl2"] ∧
    (some ["mutated", "ddl2"] : Option (List String)) ≠ some ["ddl1", "ddl2"] := by
  decide

/-- C5 (amended): `Get` returns a struct copy, never the live pointer — the
store's map is not handed out and the copy carries the stored record's fields —
but the copy is shallow: its `DDLs` slice references the same backing array as
the store's record, so a caller's element write through the returned record is
visible in the store's own view of the DDL history. -/
theorem c5_get_copy_is_shallow (h : DDLHeap) (m : MemRef) (gs gt : String)
    (r : GhostDDLInfoRef) (hr : getShallowCopy m gs gt = some r)
    (hlt : r.ddlsRef < h.length) :
    storeDDLsView h m gs gt = some (heapRead h r.ddlsRef) ∧
    ∀ (i : Nat) (v : String),
      storeDDLsView (heapWriteElem h r.ddlsRef i v) m gs gt =
        some ((heapRead h r.ddlsRef).set i v) := by
  constructor
  · simp [storeDDLsView, hr]
  · intro i v
    rw [storeDDLsView, hr]
    rw [Option.map_some']
    rw [heapWriteElem]
    show some (heapRead (h.set r.ddlsRef ((h.getD r.ddlsRef []).set i v)) r.ddlsRef) = _
    rw [heapRead, getD_set_self h r.ddlsRef _ [] hlt]
    rfl

/-- Witness for C5's amended theorem at a concrete input. -/
theorem c5_witness :
    storeDDLsView (heapWriteElem exHeap 0 1 "w") exMemRef "g1" "t1" =
      some ((heapRead exHeap 0).set 1 "w") :=
  (c5_get_copy_is_shallow exHeap exMemRef "g1" "t1" ⟨"realdb", "realtbl", 0⟩ (by decide)
    (by decide)).2 1 "w"

end OnlineDDL
